import Mathlib

/-!
Verification of the tesei pipeline core: a shallow embedding of the
envelope (Message), Thread, Transform helpers, stage routing helpers,
builder and executor, with theorems checking the specification's claims
against the embedded code.

Go channels are modelled by explicit data (buffers as lists, channel
references as natural numbers); goroutine interleavings relevant to a
claim are modelled by explicit event/schedule parameters. Machine
integers that can go negative (buffer sizes) are Int; errors are an
inductive mirroring opaque Go error values plus fmt.Errorf wrapping.
-/

namespace Tesei

/-- Opaque Go error values: a plain error, a fmt.Errorf wrapping with a
message (the Go `%w` verb), and the context cancellation error. -/
inductive GoError where
  | str (s : String)
  | wrap (msg : String) (inner : GoError)
  | canceled
deriving DecidableEq

/-! ### Thread (src/context.go)

The Go Thread wraps a context.Context and a `chan error` created with
`make(chan error, errorBufferSize)`. The cancellation handle is not part
of the buffered-error state; the error channel buffer is modelled as a
list bounded by its capacity. -/

/-- State of the Thread's error channel: current buffer contents and the
channel capacity fixed at creation. -/
structure ThreadState where
  errorBuf : List GoError
  errorCap : Nat
deriving DecidableEq

/-- NewThread(ctx, errorBufferSize): fresh Thread with an empty error
buffer of the given capacity (the context argument carries no buffered
state and is omitted). -/
def NewThread (errorBufferSize : Nat) : ThreadState :=
  { errorBuf := [], errorCap := errorBufferSize }

/-- Thread.SetError performs `t.errorChan <- err`, a plain blocking
channel send. If the buffer has a free slot the send completes at once
(`some` of the new state); if the buffer is full the caller blocks until
a consumer receives, modelled as `none`. Nothing is ever dropped. -/
def ThreadState.SetError (t : ThreadState) (err : GoError) : Option ThreadState :=
  if t.errorBuf.length < t.errorCap then
    some { t with errorBuf := t.errorBuf ++ [err] }
  else
    none

/-- executor.Start creates the run's Thread with `NewThread(base, 1)`:
the error channel capacity for every run is 1. -/
def executorErrorBufferSize : Nat := 1

/-! ### The select in executor.Start (src/unnamed/part_011 lines 39-49)

```
select {
case err := <-ctx.Error():
        e.cancel()
        return time.Since(start), fmt.Errorf("Executor error: %w", err)
case <-ctx.Done():
        wg.Wait()
        return time.Since(start), ctx.Context.Err()
case <-done:
        break
}
```

One select step is modelled by the event that fires plus the Thread
state feeding `ctx.Error()`. The `done` channel closes only after
`wg.Wait()` succeeds inside the tracking goroutine, so on that path the
workers are already joined when Start returns. -/

/-- Which case of the executor.Start select fires. -/
inductive StartEvent where
  | fatalErr
  | ctxDone
  | allDone
deriving DecidableEq

/-- Observable outcome of executor.Start once the select resolves:
whether e.cancel() was invoked, whether every worker had exited before
Start returned (via wg.Wait or the done channel), and the error value
returned (the elapsed duration is wall-clock and not modelled). -/
structure StartOutcome where
  cancelCalled : Bool
  workersJoined : Bool
  result : Option GoError
deriving DecidableEq

/-- One resolution of the executor.Start select. The fatalErr case can
fire only when the Thread's error buffer is nonempty; it receives the
buffer head (the first reported error), calls e.cancel() and returns the
wrapped error immediately, with no wg.Wait in that branch. The ctxDone
case calls wg.Wait and returns the context error. The allDone case fires
only after the tracking goroutine's wg.Wait completed, returning nil. -/
def executorStartStep (th : ThreadState) (ev : StartEvent) :
    Option (ThreadState × StartOutcome) :=
  match ev with
  | .fatalErr =>
    match th.errorBuf with
    | [] => none
    | e :: rest =>
      some ({ th with errorBuf := rest },
        { cancelCalled := true, workersJoined := false,
          result := some (.wrap "Executor error" e) })
  | .ctxDone =>
    some (th, { cancelCalled := false, workersJoined := true,
                result := some .canceled })
  | .allDone =>
    some (th, { cancelCalled := false, workersJoined := true, result := none })

/-! ### Message (src/files/split_merge.go related doc, message.go)

```
type Message[T any] struct {
        ID       string
        Data     T
        Metadata map[string]any
        Error      error
        ErrorStage string
}
```

Metadata values (`any`) are an opaque type parameter M; the map contents
are an association list. Message identity (the `*Message` pointer) is a
reference into an explicit heap, so that cloning freshness and aliasing
of mutation are expressible. -/

/-- Contents of one Message value. -/
structure MsgData (T M : Type) where
  ID : String
  Data : T
  Metadata : List (String × M)
  Error : Option GoError
  ErrorStage : String
deriving DecidableEq

instance {T M : Type} [Inhabited T] : Inhabited (MsgData T M) :=
  ⟨{ ID := "", Data := default, Metadata := [], Error := none, ErrorStage := "" }⟩

/-- Heap of allocated Message values; a reference is an index into
`cells`, and allocation appends. -/
structure MsgHeap (T M : Type) where
  cells : List (MsgData T M)
deriving DecidableEq

variable {T M : Type}

/-- Dereference a Message pointer. -/
def MsgHeap.read [Inhabited T] (h : MsgHeap T M) (r : Nat) : MsgData T M :=
  h.cells.getD r default

/-- The value built by Message.Clone: same ID, the Data field copied by
value (a reference copy when T is a reference type; no deep copy), the
same Error and ErrorStage, and a fresh map holding the same key-value
pairs (`for k, v := range m.Metadata { n.Metadata[k] = v }` reproduces
exactly the mapping; map identity lives in the heap reference, so the
contents list is carried over unchanged). -/
def cloneData (m : MsgData T M) : MsgData T M :=
  { ID := m.ID, Data := m.Data, Metadata := m.Metadata,
    Error := m.Error, ErrorStage := m.ErrorStage }

/-- Message.Clone as a heap operation: `n := Message[T]{...}; return &n`
allocates a fresh Message (and with it a fresh metadata map) and returns
its reference. -/
def MsgHeap.cloneAlloc [Inhabited T] (h : MsgHeap T M) (r : Nat) :
    MsgHeap T M × Nat :=
  (⟨h.cells ++ [cloneData (h.read r)]⟩, h.cells.length)

/-- Go map assignment `m[k] = v`: replace the binding if the key is
present, otherwise add it. -/
def mapSet (m : List (String × M)) (k : String) (v : M) : List (String × M) :=
  if m.any (fun p => p.1 = k) then
    m.map (fun p => if p.1 = k then (k, v) else p)
  else
    m ++ [(k, v)]

/-- `msg.Metadata[k] = v` on the Message behind reference r: an in-place
mutation of that Message's metadata map through the heap. -/
def MsgHeap.setMeta [Inhabited T] (h : MsgHeap T M) (r : Nat) (k : String) (v : M) :
    MsgHeap T M :=
  ⟨h.cells.set r { h.read r with Metadata := mapSet (h.read r).Metadata k v }⟩

/-- Message.WithError, the conventional error setter: sets both Error
and ErrorStage and returns the same message. -/
def MsgData.WithError (m : MsgData T M) (err : GoError) (stage : String) :
    MsgData T M :=
  { m with Error := some err, ErrorStage := stage }

/-! ### Transform helpers (src/job.go)

The channel loop of TransformJob.Run / Transform over the sequence of
messages received before the input closes, in a run where cancellation
does not fire. Messages travel by value here (their heap identity plays
no role in these claims); the Thread is threaded through to record that
the loop never reports to it. -/

/-- TransformJob.Run (src/job.go lines 26-53): for each received
message, when its Error is nil or ProcessError is set, apply the
transform; a nil result drops the message, a non-nil error is assigned
directly to the Error field of the returned message; the result (or the
untouched message when skipped) is forwarded. -/
def TransformJobRun (processError : Bool)
    (transform : MsgData T M → Option (MsgData T M) × Option GoError)
    (th : ThreadState) :
    List (MsgData T M) → ThreadState × List (MsgData T M)
  | [] => (th, [])
  | msg :: rest =>
    if msg.Error = none ∨ processError = true then
      match transform msg with
      | (none, _) => TransformJobRun processError transform th rest
      | (some m, some e) =>
        let q := TransformJobRun processError transform th rest
        (q.1, { m with Error := some e } :: q.2)
      | (some m, none) =>
        let q := TransformJobRun processError transform th rest
        (q.1, m :: q.2)
    else
      let q := TransformJobRun processError transform th rest
      (q.1, msg :: q.2)

/-- Transform (src/job.go lines 58-85): same loop with the skip
condition fixed to `msg.Error == nil`. -/
def TransformRun
    (transform : MsgData T M → Option (MsgData T M) × Option GoError)
    (th : ThreadState) :
    List (MsgData T M) → ThreadState × List (MsgData T M)
  | [] => (th, [])
  | msg :: rest =>
    if msg.Error = none then
      match transform msg with
      | (none, _) => TransformRun transform th rest
      | (some m, some e) =>
        let q := TransformRun transform th rest
        (q.1, { m with Error := some e } :: q.2)
      | (some m, none) =>
        let q := TransformRun transform th rest
        (q.1, m :: q.2)
    else
      let q := TransformRun transform th rest
      (q.1, msg :: q.2)

/-! ### Broadcast splitter oneToMany (src/unnamed/part_009 lines 73-107)

```
func oneToMany[T any](ctx context.Context, in <-chan *Message[T], out []chan *Message[T]) {
        defer func() { for _, ch := range out { if ch != nil { close(ch) } } }()
        for {
                select {
                case <-ctx.Done(): return
                case msg, ok := <-in:
                        if !ok { return }
                        for _, ch := range out {
                                if ch == nil { continue }
                                cloned := msg.Clone()
                                select {
                                case <-ctx.Done(): return
                                case ch <- cloned:
                                }
                        }
                }
        }
}
```

The input channel is the list of Message references received before it
closes. Cancellation is a schedule parameter `cancel`: `none` means the
Done channel is never taken; `some (i, 0)` means the outer select takes
Done before receiving message i; `some (i, j)` with `j ≥ 1` means the
send select for branch j of message i takes Done (branches below j of
message i were already served, and the clone for branch j had been
allocated when Done fired). The per-envelope fan-out of one message is
`fanoutMsg`; deliveries are reported row-major (one row per received
message, one entry per branch). The deferred loop closes every branch
channel on every return path. -/

/-- Fan one received message out to `rem` remaining branch channels when
the next `limit` sends succeed before cancellation is observed; clones
are produced one per branch, and the branch whose send select observes
Done still allocated its clone before returning. -/
def fanoutMsg [Inhabited T] :
    MsgHeap T M → Nat → Nat → Nat → MsgHeap T M × List (Option Nat)
  | h, _, 0, _ => (h, [])
  | h, r, rem + 1, 0 => ((h.cloneAlloc r).1, List.replicate (rem + 1) none)
  | h, r, rem + 1, limit + 1 =>
    let p := h.cloneAlloc r
    let q := fanoutMsg p.1 r rem limit
    (q.1, some p.2 :: q.2)

/-- Result of a splitter run: the final heap, the delivered clone
references (row t, column j = what branch j received for input message
t; none = not delivered), and the closed flag of each branch channel. -/
structure SplitterResult (T M : Type) where
  heap : MsgHeap T M
  rows : List (List (Option Nat))
  closed : List Bool
deriving DecidableEq

/-- The oneToMany splitter over the received input sequence, k branch
channels and a cancellation schedule. -/
def oneToMany [Inhabited T] :
    MsgHeap T M → Nat → List Nat → Option (Nat × Nat) → SplitterResult T M
  | h, k, [], _ => ⟨h, [], List.replicate k true⟩
  | h, k, _ :: _, some (0, 0) => ⟨h, [], List.replicate k true⟩
  | h, k, r :: _, some (0, j + 1) =>
    let p := fanoutMsg h r k (j + 1)
    ⟨p.1, [p.2], List.replicate k true⟩
  | h, k, r :: rest, some (i + 1, j) =>
    let p := fanoutMsg h r k k
    let q := oneToMany p.1 k rest (some (i, j))
    ⟨q.heap, p.2 :: q.rows, List.replicate k true⟩
  | h, k, r :: rest, none =>
    let p := fanoutMsg h r k k
    let q := oneToMany p.1 k rest none
    ⟨q.heap, p.2 :: q.rows, List.replicate k true⟩

/-- Index below which every received message is guaranteed a full
fan-out: everything for an uncancelled run, the messages before the
cancellation point otherwise. -/
def cutoff (cancel : Option (Nat × Nat)) (n : Nat) : Nat :=
  match cancel with
  | none => n
  | some (i, _) => min i n

/-! ### Parallel stage wiring (src/unnamed/part_009 lines 24-46)

```
func (s *parallelStage[T]) run(ctx *Thread, in <-chan *Message[T], out chan<- *Message[T]) {
        inChannels := make([]chan *Message[T], len(s.jobs))
        outChannels := make([]chan *Message[T], len(s.jobs))
        for i := range inChannels {
                inChannels[i] = make(chan *Message[T], 1)
                outChannels[i] = make(chan *Message[T], 1)
        }
        go oneToMany(ctx, in, inChannels)
        go manyToOne(ctx, outChannels, out)
        ...one worker per job...
}
```

The stage has no access to the executor's buffer size; the channel
creation loop fixes every capacity with the literal 1. -/

/-- Tasks and channel capacities set up by parallelStage.run for k jobs. -/
structure ParallelRunPlan where
  inChanCaps : List Nat
  outChanCaps : List Nat
  splitterBranches : Nat
  mergerSources : Nat
  workers : Nat
deriving DecidableEq

/-- The wiring parallelStage.run builds for a stage of k jobs. -/
def parallelStageRunPlan (k : Nat) : ParallelRunPlan :=
  let inChannels := (List.range k).map fun _ => 1
  let outChannels := (List.range k).map fun _ => 1
  ⟨inChannels, outChannels, k, k, k⟩

/-! ### Builder (src/pipeline.go)

The builder's `stages []stage[T]` is a Go slice. To settle snapshot and
aliasing questions, slices are modelled concretely: a heap of backing
arrays, a slice value being a backing-array reference plus a length (the
capacity is the backing array's length). `append` writes in place while
capacity remains and reallocates into a fresh backing array otherwise;
`make` allocates fresh; `copy` overwrites a prefix of the destination's
backing array. Stage values are opaque apart from their variant. -/

/-- Compiled stage variants held by the builder (src/unnamed/part_009):
sequentialStage{job}, parallelStage{jobs}, fanOutStage{job, count}. -/
inductive StageSpec (J : Type) where
  | sequential (job : J)
  | parallel (jobs : List J)
  | fanOut (job : J) (count : Int)
deriving DecidableEq

instance {J : Type} [Inhabited J] : Inhabited (StageSpec J) :=
  ⟨.sequential default⟩

/-- A Go slice value: backing array reference and length. -/
structure GoSlice where
  ref : Nat
  len : Nat
deriving DecidableEq

/-- Heap of backing arrays. -/
structure SliceHeap (A : Type) where
  arrays : List (List A)
deriving DecidableEq

variable {A : Type} {J : Type}

/-- The elements a slice denotes. -/
def SliceHeap.readSlice (h : SliceHeap A) (s : GoSlice) : List A :=
  (h.arrays.getD s.ref []).take s.len

/-- A slice is valid in a heap when its reference exists and its length
does not exceed its capacity. -/
def SliceWF (h : SliceHeap A) (s : GoSlice) : Prop :=
  s.ref < h.arrays.length ∧ s.len ≤ (h.arrays.getD s.ref []).length

/-- `append(s, x)`: write into the existing backing array while spare
capacity remains, otherwise allocate a fresh backing array (grown by
doubling), copy the elements over and append there. -/
def goAppend [Inhabited A] (h : SliceHeap A) (s : GoSlice) (x : A) :
    SliceHeap A × GoSlice :=
  let backing := h.arrays.getD s.ref []
  if s.len < backing.length then
    (⟨h.arrays.set s.ref (backing.set s.len x)⟩, ⟨s.ref, s.len + 1⟩)
  else
    let newCap := if backing.length = 0 then 1 else 2 * backing.length
    let grown := backing.take s.len ++ [x] ++
      List.replicate (newCap - s.len - 1) default
    (⟨h.arrays ++ [grown]⟩, ⟨h.arrays.length, s.len + 1⟩)

/-- `make([]A, n)`: fresh backing array of n zero values. -/
def goMake [Inhabited A] (h : SliceHeap A) (n : Nat) : SliceHeap A × GoSlice :=
  (⟨h.arrays ++ [List.replicate n default]⟩, ⟨h.arrays.length, n⟩)

/-- `copy(dst, src)`: overwrite the front of dst's backing array with
min(len dst, len src) elements of src. -/
def goCopy (h : SliceHeap A) (dst src : GoSlice) : SliceHeap A :=
  let moved := (h.readSlice src).take dst.len
  let backing := h.arrays.getD dst.ref []
  ⟨h.arrays.set dst.ref (moved ++ backing.drop moved.length)⟩

/-- The builder: stage slice and buffer size (a Go int). -/
structure PipelineState (J : Type) where
  stages : GoSlice
  bufferSize : Int
deriving DecidableEq

/-- var defaultBufferSize = 1 (src/pipeline.go line 3). -/
def pipelineDefaultBufferSize : Int := 1

/-- NewPipeline: empty stage slice literal, default buffer size. -/
def NewPipeline [Inhabited J] (h : SliceHeap (StageSpec J)) :
    SliceHeap (StageSpec J) × PipelineState J :=
  let m := goMake h 0
  (m.1, { stages := m.2, bufferSize := pipelineDefaultBufferSize })

/-- Pipeline.Sequential: the loop appends one sequentialStage per job,
in order. -/
def Sequential [Inhabited J] :
    SliceHeap (StageSpec J) → PipelineState J → List J →
      SliceHeap (StageSpec J) × PipelineState J
  | h, p, [] => (h, p)
  | h, p, job :: rest =>
    let r := goAppend h p.stages (.sequential job)
    Sequential r.1 { p with stages := r.2 } rest

/-- Pipeline.Parallel: append one parallelStage holding all the jobs. -/
def Parallel [Inhabited J] (h : SliceHeap (StageSpec J)) (p : PipelineState J)
    (jobs : List J) : SliceHeap (StageSpec J) × PipelineState J :=
  let r := goAppend h p.stages (.parallel jobs)
  (r.1, { p with stages := r.2 })

/-- Pipeline.FanOut: append one fanOutStage. -/
def FanOut [Inhabited J] (h : SliceHeap (StageSpec J)) (p : PipelineState J)
    (job : J) (count : Int) : SliceHeap (StageSpec J) × PipelineState J :=
  let r := goAppend h p.stages (.fanOut job count)
  (r.1, { p with stages := r.2 })

/-- Pipeline.WithBufferSize: store the given size unchanged. -/
def WithBufferSize (h : SliceHeap (StageSpec J)) (p : PipelineState J)
    (size : Int) : SliceHeap (StageSpec J) × PipelineState J :=
  (h, { p with bufferSize := size })

/-- The executor record produced by Build: compiled stage slice and the
buffer size copied by value. -/
structure ExecutorConfig (J : Type) where
  stages : GoSlice
  bufferSize : Int
deriving DecidableEq

/-- Pipeline.compileStages: `compiled := make([]stage[T], len(p.stages));
copy(compiled, p.stages)`. -/
def compileStages [Inhabited J] (h : SliceHeap (StageSpec J))
    (p : PipelineState J) : SliceHeap (StageSpec J) × GoSlice :=
  let m := goMake h p.stages.len
  (goCopy m.1 m.2 p.stages, m.2)

/-- Pipeline.Build. -/
def Build [Inhabited J] (h : SliceHeap (StageSpec J)) (p : PipelineState J) :
    SliceHeap (StageSpec J) × ExecutorConfig J :=
  let c := compileStages h p
  (c.1, { stages := c.2, bufferSize := p.bufferSize })

/-- A later call on the same builder. -/
inductive BuilderOp (J : Type) where
  | sequential (jobs : List J)
  | parallel (jobs : List J)
  | fanOut (job : J) (count : Int)
  | withBufferSize (size : Int)

/-- Apply one later builder call. -/
def applyOp [Inhabited J] (h : SliceHeap (StageSpec J)) (p : PipelineState J) :
    BuilderOp J → SliceHeap (StageSpec J) × PipelineState J
  | .sequential jobs => Sequential h p jobs
  | .parallel jobs => Parallel h p jobs
  | .fanOut job count => FanOut h p job count
  | .withBufferSize size => WithBufferSize h p size

/-- Apply a sequence of later builder calls. -/
def applyOps [Inhabited J] (h : SliceHeap (StageSpec J)) (p : PipelineState J) :
    List (BuilderOp J) → SliceHeap (StageSpec J) × PipelineState J
  | [] => (h, p)
  | op :: ops =>
    let r := applyOp h p op
    applyOps r.1 r.2 ops

/-! ### Executor runtime fields and the empty-pipeline pump
(src/unnamed/part_011)

The executor struct's input/output channel fields are nil (none) until
Start assigns them; Run leaves them untouched and passes the caller's
channels to innerRun as globalIn/globalOut. innerRun's zero-stage pump
(lines 70-76) is

```
if len(e.stages) == 0 {
        go func() {
                for range e.input { }
                close(e.output)
        }()
}
```

which drains e.input and closes e.output, ignoring the globalIn and
globalOut arguments. Channels are identified by numbers. -/

/-- Runtime fields of the executor struct. -/
structure ExecutorRT (J : Type) where
  stages : List (StageSpec J)
  bufferSize : Int
  input : Option Nat
  output : Option Nat

/-- An executor as Build returns it: both channel fields hold Go nil. -/
def builtExecutor (stages : List (StageSpec J)) (bufferSize : Int) :
    ExecutorRT J :=
  { stages := stages, bufferSize := bufferSize, input := none, output := none }

/-- executor.Start before calling innerRun: assign fresh input and
output channels to the executor's fields. -/
def startFields (e : ExecutorRT J) (cin cout : Nat) : ExecutorRT J :=
  { e with input := some cin, output := some cout }

/-- What the trivial pump ranges over and what it closes. -/
structure PumpAction where
  drains : Option Nat
  closes : Option Nat
deriving DecidableEq

/-- The zero-stage pump spawned by innerRun, given the globalIn and
globalOut channels innerRun received: spawned only when the stage list
is empty, and it targets the executor's own fields, not the arguments. -/
def innerRunEmptyPump (e : ExecutorRT J) (globalIn globalOut : Nat) :
    Option PumpAction :=
  if e.stages.length = 0 then some { drains := e.input, closes := e.output }
  else none

/-- Allocation count of one fan-out: one clone per served branch, plus
the clone already made when a send select observes cancellation. -/
def numAlloc : Nat → Nat → Nat
  | 0, _ => 0
  | _ + 1, 0 => 1
  | rem + 1, limit + 1 => 1 + numAlloc rem limit

/-- The splitter contract checked for oneToMany: every branch channel is
closed on return; messages allocated before the run are untouched; the
heap only grows; and each input message with index below the guarantee
cutoff was delivered to every branch j as the clone at reference
(initial heap size) + t * k + j, whose contents are the clone of that
input message. -/
def SplitterSpec {T M : Type} [Inhabited T] (h : MsgHeap T M) (k : Nat)
    (input : List Nat) (cancel : Option (Nat × Nat)) : Prop :=
  ((oneToMany h k input cancel).closed = List.replicate k true) ∧
  (∀ x, x < h.cells.length →
      (oneToMany h k input cancel).heap.read x = h.read x) ∧
  (h.cells.length ≤ (oneToMany h k input cancel).heap.cells.length) ∧
  (∀ t, t < cutoff cancel input.length →
      ((oneToMany h k input cancel).rows.getD t [] =
        (List.range k).map (fun j => some (h.cells.length + t * k + j))) ∧
      ∀ j, j < k →
        (oneToMany h k input cancel).heap.read (h.cells.length + t * k + j) =
          cloneData (h.read (input.getD t 0)))

/-! ## Helper lemmas -/

theorem map_eq_on {A B : Type} (l : List A) (f g : A → B)
    (h : ∀ a ∈ l, f a = g a) : l.map f = l.map g := by
  induction l with
  | nil => rfl
  | cons a t ih =>
    simp only [List.map_cons]
    rw [h a (by simp), ih (fun x hx => h x (by simp [hx]))]

theorem getD_mem_of_lt {A : Type} (l : List A) (n : Nat) (d : A)
    (h : n < l.length) : l.getD n d ∈ l := by
  induction l generalizing n with
  | nil => simp at h
  | cons a t ih =>
    cases n with
    | zero => simp
    | succ m =>
      simp only [List.getD_cons_succ]
      exact List.mem_cons_of_mem a (ih m (by simpa using h))

theorem numAlloc_self (k : Nat) : numAlloc k k = k := by
  induction k with
  | zero => rfl
  | succ n ih => simp [numAlloc, ih]; omega

theorem cutoff_zero (c : Option (Nat × Nat)) : cutoff c 0 = 0 := by
  match c with
  | none => rfl
  | some (i, j) => simp [cutoff]

theorem cutoff_le (c : Option (Nat × Nat)) (n : Nat) : cutoff c n ≤ n := by
  match c with
  | none => exact le_refl n
  | some (i, j) => exact Nat.min_le_right i n

theorem getD_append_of_lt {A : Type} (l l2 : List A) (n : Nat) (d : A)
    (h : n < l.length) : (l ++ l2).getD n d = l.getD n d := by
  induction l generalizing n with
  | nil => simp at h
  | cons a t ih =>
    cases n with
    | zero => rfl
    | succ m =>
      simp only [List.cons_append, List.getD_cons_succ]
      exact ih m (by simpa using h)

theorem getD_append_of_ge {A : Type} (l l2 : List A) (n : Nat) (d : A)
    (h : l.length ≤ n) : (l ++ l2).getD n d = l2.getD (n - l.length) d := by
  induction l generalizing n with
  | nil => simp
  | cons a t ih =>
    cases n with
    | zero => simp at h
    | succ m =>
      simp only [List.cons_append, List.getD_cons_succ, List.length_cons]
      simpa using ih m (by simpa using h)

theorem getD_set_self {A : Type} (l : List A) (i : Nat) (x : A) (d : A)
    (h : i < l.length) : (l.set i x).getD i d = x := by
  induction l generalizing i with
  | nil => simp at h
  | cons a t ih =>
    cases i with
    | zero => rfl
    | succ m =>
      simp only [List.set_cons_succ, List.getD_cons_succ]
      exact ih m (by simpa using h)

theorem getD_set_other {A : Type} (l : List A) (i j : Nat) (x : A) (d : A)
    (h : i ≠ j) : (l.set i x).getD j d = l.getD j d := by
  induction l generalizing i j with
  | nil => simp
  | cons a t ih =>
    cases i with
    | zero =>
      cases j with
      | zero => exact absurd rfl h
      | succ m => rfl
    | succ m =>
      cases j with
      | zero => rfl
      | succ n =>
        simp only [List.set_cons_succ, List.getD_cons_succ]
        exact ih m n (fun hc => h (by rw [hc]))

theorem getD_replicate_of_lt {A : Type} (n i : Nat) (x d : A) (h : i < n) :
    (List.replicate n x).getD i d = x := by
  induction n generalizing i with
  | zero => simp at h
  | succ m ih =>
    cases i with
    | zero => rfl
    | succ j =>
      simp only [List.replicate_succ, List.getD_cons_succ]
      exact ih j (by omega)

/-- Row-major numbering is injective within a row width. -/
theorem rowMajorInj {k t j t2 j2 : Nat} (hj : j < k) (hj2 : j2 < k)
    (he : t * k + j = t2 * k + j2) : t = t2 ∧ j = j2 := by
  have hk : 0 < k := Nat.lt_of_le_of_lt (Nat.zero_le j) hj
  have hmod : (t * k + j) % k = (t2 * k + j2) % k := by rw [he]
  rw [Nat.mul_comm t k, Nat.mul_comm t2 k, Nat.mul_add_mod, Nat.mul_add_mod,
    Nat.mod_eq_of_lt hj, Nat.mod_eq_of_lt hj2] at hmod
  subst hmod
  have := Nat.eq_of_mul_eq_mul_right hk (by omega : t * k = t2 * k)
  exact ⟨this, rfl⟩

/-- The Transform helpers never touch the Thread: the returned Thread
state is the one passed in (no error is ever reported there). -/
theorem transformJobRun_thread_unchanged {T M : Type} (pe : Bool)
    (f : MsgData T M → Option (MsgData T M) × Option GoError)
    (th : ThreadState) (l : List (MsgData T M)) :
    (TransformJobRun pe f th l).1 = th := by
  induction l with
  | nil => rfl
  | cons msg rest ih =>
    simp only [TransformJobRun]
    split
    · split <;> simpa using ih
    · simpa using ih

theorem transformRun_thread_unchanged {T M : Type}
    (f : MsgData T M → Option (MsgData T M) × Option GoError)
    (th : ThreadState) (l : List (MsgData T M)) :
    (TransformRun f th l).1 = th := by
  induction l with
  | nil => rfl
  | cons msg rest ih =>
    simp only [TransformRun]
    split
    · split <;> simpa using ih
    · simpa using ih

/-! ## Claim theorems -/

/-- C1 counterexample: when the fatal-error case of the executor.Start
select fires, Start returns without joining the workers (no wg.Wait in
that branch), refuting the claim that Start waits for all workers to
exit and that no worker is still running when Start returns. -/
theorem start_fatal_returns_without_join_cex :
    ((executorStartStep
        { errorBuf := [GoError.str "boom"], errorCap := executorErrorBufferSize }
        StartEvent.fatalErr).map fun p => p.2.workersJoined) = some false := by
  decide

/-- C1 amended: if a Job reports a fatal error on the run's Thread
(buffer capacity 1, so the buffer holds the first report), the Start
select's fatal case observes that first report, calls cancel, and
returns the wrapped error immediately, without waiting for the workers
to exit. -/
theorem start_fatal_cancels_and_wraps_first (e : GoError) (th : ThreadState)
    (hrep : (NewThread executorErrorBufferSize).SetError e = some th) :
    executorStartStep th StartEvent.fatalErr =
      some ({ errorBuf := [], errorCap := executorErrorBufferSize },
        { cancelCalled := true, workersJoined := false,
          result := some (GoError.wrap "Executor error" e) }) := by
  simp only [NewThread, ThreadState.SetError, executorErrorBufferSize,
    List.length_nil, Nat.zero_lt_one, if_true, List.nil_append,
    Option.some.injEq] at hrep
  subst hrep
  rfl

/-- C1 witness: the amended theorem at a concrete reported error. -/
theorem start_fatal_cancels_and_wraps_first_witness :
    executorStartStep
        { errorBuf := [GoError.str "disk failed"], errorCap := executorErrorBufferSize }
        StartEvent.fatalErr =
      some ({ errorBuf := [], errorCap := executorErrorBufferSize },
        { cancelCalled := true, workersJoined := false,
          result := some (GoError.wrap "Executor error" (GoError.str "disk failed")) }) :=
  start_fatal_cancels_and_wraps_first (GoError.str "disk failed")
    { errorBuf := [GoError.str "disk failed"], errorCap := executorErrorBufferSize }
    (by decide)

/-- C3 counterexample: a second SetError on the run's Thread while the
first report sits unconsumed in the capacity-1 buffer blocks the caller
(no slot, nothing is dropped), refuting the claim that every SetError
call returns without waiting on a consumer. -/
theorem setError_second_report_blocks_cex :
    (((NewThread executorErrorBufferSize).SetError (GoError.str "first")).bind
      fun t => t.SetError (GoError.str "second")) = none := by
  decide

/-- C3 amended: on the Thread created for a run (error buffer capacity
1), the first SetError returns without blocking, but a further SetError
while the buffer is full blocks until a consumer receives; reports after
the first are not dropped. -/
theorem setError_first_succeeds_then_blocks (e1 e2 : GoError) :
    (NewThread executorErrorBufferSize).SetError e1 =
      some { errorBuf := [e1], errorCap := executorErrorBufferSize } ∧
    ThreadState.SetError
      { errorBuf := [e1], errorCap := executorErrorBufferSize } e2 = none := by
  constructor <;> simp [NewThread, ThreadState.SetError, executorErrorBufferSize]

/-- C5 counterexample: when the Transform handler returns a message
together with an error, TransformJob.Run assigns the error directly to
the Error field; ErrorStage stays empty (unset), so the error is not
attached via the conventional setter WithError and the claim that both
fields are set is false. -/
theorem transform_error_stage_not_set_cex :
    (let m0 : MsgData String String :=
      { ID := "id1", Data := "d", Metadata := [], Error := none, ErrorStage := "" }
     let f0 : MsgData String String → Option (MsgData String String) × Option GoError :=
      fun m => (some m, some (GoError.str "boom"))
     let out := (TransformJobRun false f0 (NewThread executorErrorBufferSize) [m0]).2
     out = [{ m0 with Error := some (GoError.str "boom") }] ∧
     (out.getD 0 default).Error = some (GoError.str "boom") ∧
     (out.getD 0 default).ErrorStage = "" ∧
     out ≠ [m0.WithError (GoError.str "boom") "transform"]) := by
  decide

/-- C5 amended: whenever the handler returns a non-nil envelope together
with a non-nil error, the error is assigned directly to the returned
envelope's Error field — ErrorStage is left as it was, not populated —
and the envelope is forwarded downstream. Holds for TransformJob.Run
and, when the input has no prior error, for Transform. -/
theorem transform_error_assigned_directly {T M : Type}
    (pe : Bool) (f : MsgData T M → Option (MsgData T M) × Option GoError)
    (th : ThreadState) (msg m1 : MsgData T M) (e : GoError)
    (rest : List (MsgData T M))
    (hproc : msg.Error = none ∨ pe = true)
    (hf : f msg = (some m1, some e)) :
    TransformJobRun pe f th (msg :: rest) =
      ((TransformJobRun pe f th rest).1,
        { m1 with Error := some e } :: (TransformJobRun pe f th rest).2) ∧
    ({ m1 with Error := some e } : MsgData T M).ErrorStage = m1.ErrorStage ∧
    (msg.Error = none →
      TransformRun f th (msg :: rest) =
        ((TransformRun f th rest).1,
          { m1 with Error := some e } :: (TransformRun f th rest).2)) := by
  refine ⟨?_, rfl, fun hE => ?_⟩
  · simp only [TransformJobRun, if_pos hproc, hf]
  · simp only [TransformRun, if_pos hE, hf]

/-- C5 witness: the amended theorem at a concrete handler and message. -/
theorem transform_error_assigned_directly_witness :
    TransformJobRun false
        (fun m : MsgData String String => (some m, some (GoError.str "boom")))
        (NewThread executorErrorBufferSize)
        [{ ID := "a", Data := "x", Metadata := [], Error := none, ErrorStage := "" }] =
      (NewThread executorErrorBufferSize,
        [{ ID := "a", Data := "x", Metadata := [],
           Error := some (GoError.str "boom"), ErrorStage := "" }]) := by
  have h := transform_error_assigned_directly false
    (fun m : MsgData String String => (some m, some (GoError.str "boom")))
    (NewThread executorErrorBufferSize)
    { ID := "a", Data := "x", Metadata := [], Error := none, ErrorStage := "" }
    { ID := "a", Data := "x", Metadata := [], Error := none, ErrorStage := "" }
    (GoError.str "boom") [] (Or.inl rfl) rfl
  exact h.1

/-- C10: when the handler returns a nil envelope together with a non-nil
error, the input envelope is dropped and the error is silently
discarded: the run produces exactly what it produces on the remaining
input, nothing is forwarded for that message, and the Thread never sees
the error. Holds for TransformJob.Run and, when the input has no prior
error, for Transform. -/
theorem transform_drop_discards_error {T M : Type}
    (pe : Bool) (f : MsgData T M → Option (MsgData T M) × Option GoError)
    (th : ThreadState) (msg : MsgData T M) (e : GoError)
    (rest : List (MsgData T M))
    (hproc : msg.Error = none ∨ pe = true)
    (hf : f msg = (none, some e)) :
    TransformJobRun pe f th (msg :: rest) = TransformJobRun pe f th rest ∧
    (TransformJobRun pe f th (msg :: rest)).1 = th ∧
    (msg.Error = none →
      TransformRun f th (msg :: rest) = TransformRun f th rest) := by
  refine ⟨?_, transformJobRun_thread_unchanged pe f th (msg :: rest), fun hE => ?_⟩
  · simp only [TransformJobRun, if_pos hproc, hf]
  · simp only [TransformRun, if_pos hE, hf]

/-- C10 witness: the theorem at a concrete dropping handler. -/
theorem transform_drop_discards_error_witness :
    TransformJobRun false
        (fun _ : MsgData String String => (none, some (GoError.str "bad item")))
        (NewThread executorErrorBufferSize)
        [{ ID := "a", Data := "x", Metadata := [], Error := none, ErrorStage := "" },
         { ID := "b", Data := "y", Metadata := [], Error := none, ErrorStage := "" }] =
      TransformJobRun false
        (fun _ : MsgData String String => (none, some (GoError.str "bad item")))
        (NewThread executorErrorBufferSize)
        [{ ID := "b", Data := "y", Metadata := [], Error := none, ErrorStage := "" }] :=
  (transform_drop_discards_error false
    (fun _ : MsgData String String => (none, some (GoError.str "bad item")))
    (NewThread executorErrorBufferSize)
    { ID := "a", Data := "x", Metadata := [], Error := none, ErrorStage := "" }
    (GoError.str "bad item")
    [{ ID := "b", Data := "y", Metadata := [], Error := none, ErrorStage := "" }]
    (Or.inl rfl) rfl).1

/-- C6 counterexample: a builder-accepted engine buffer size of 2
reaches the executor, yet the Broadcast (Parallel) stage creates its
per-branch input and output channels with capacity 1, not 2. -/
theorem parallel_caps_ignore_engine_buffer_cex :
    (let h0 : SliceHeap (StageSpec Nat) := ⟨[]⟩
     let p0 := NewPipeline h0
     let p1 := WithBufferSize p0.1 p0.2 2
     let b := Build p1.1 p1.2
     b.2.bufferSize = 2 ∧
     (parallelStageRunPlan 2).inChanCaps = [1, 1] ∧
     (parallelStageRunPlan 2).outChanCaps = [1, 1] ∧
     (parallelStageRunPlan 2).inChanCaps ≠ List.replicate 2 2) := by
  decide

/-- C6 amended: in a Broadcast (Parallel) stage of k branches, the k
per-branch input channels and k per-branch output channels are all
created with fixed capacity 1, independent of the engine buffer size b
carried by the executor (they equal b only when b = 1). -/
theorem parallel_caps_fixed_one {J : Type} [Inhabited J] (k : Nat)
    (h : SliceHeap (StageSpec J)) (p : PipelineState J) (b : Int) :
    (Build (WithBufferSize h p b).1 (WithBufferSize h p b).2).2.bufferSize = b ∧
    (parallelStageRunPlan k).inChanCaps = List.replicate k 1 ∧
    (parallelStageRunPlan k).outChanCaps = List.replicate k 1 := by
  refine ⟨rfl, ?_, ?_⟩ <;>
    simp [parallelStageRunPlan, List.map_const', List.length_range]

/-- C7 counterexample: WithBufferSize(0) is stored as-is and Build hands
it to the executor: the built executor carries buffer size 0, below 1,
with no rejection and no coercion. -/
theorem build_accepts_zero_buffer_cex :
    (let h0 : SliceHeap (StageSpec Nat) := ⟨[]⟩
     let p0 := NewPipeline h0
     let p1 := WithBufferSize p0.1 p0.2 0
     let b := Build p1.1 p1.2
     b.2.bufferSize = 0 ∧ ¬ (1 ≤ b.2.bufferSize)) := by
  decide

/-- C7 amended: WithBufferSize stores any size verbatim, including
values ≤ 0, and Build copies it unchanged into the executor; there is
neither rejection nor coercion to 1. -/
theorem with_buffer_size_stored_verbatim {J : Type} [Inhabited J]
    (h : SliceHeap (StageSpec J)) (p : PipelineState J) (s : Int) :
    ((WithBufferSize h p s).2).bufferSize = s ∧
    (Build (WithBufferSize h p s).1 (WithBufferSize h p s).2).2.bufferSize = s :=
  ⟨rfl, rfl⟩

/-- C4: in the zero-stage case, innerRun's trivial pump targets the
executor struct's own input and output fields rather than the globalIn
and globalOut channels innerRun received. Through Start (which has just
assigned those fields to the run's endpoints, here 10 and 11) the pump
does drain the run's input end and close the run's output end, and the
run finishes with no error; but through the Job entry point Run on a
freshly built executor the fields still hold Go nil, so the pump ranges
over a nil channel and closes a nil channel instead of the
caller-supplied streams 20 and 21 — contradicting the intended
behaviour the innerRun parameters exist for. -/
theorem empty_pipeline_pump_targets_executor_fields :
    (innerRunEmptyPump (startFields (builtExecutor ([] : List (StageSpec Nat)) 1) 10 11) 10 11 =
        some { drains := some 10, closes := some 11 }) ∧
    (innerRunEmptyPump (builtExecutor ([] : List (StageSpec Nat)) 1) 20 21 =
        some { drains := none, closes := none }) ∧
    ((none : Option Nat) ≠ some 20 ∧ (none : Option Nat) ≠ some 21) ∧
    (executorStartStep (NewThread executorErrorBufferSize) StartEvent.allDone =
        some (NewThread executorErrorBufferSize,
          { cancelCalled := false, workersJoined := true, result := none })) := by
  decide

/-- cloneData rebuilds every field of the message, so its contents equal
the source message's contents (the payload is copied by value, hence a
reference copy for reference payloads; the metadata pairs are carried
over; freshness lives in the heap reference, not the contents). -/
theorem cloneData_eq {T M : Type} (m : MsgData T M) : cloneData m = m := rfl

/-- C8: Message.Clone allocates a fresh message — a reference distinct
from the original and from every previously allocated message — whose
contents (ID, Data copied by value with no deep copy, Error, ErrorStage,
and a metadata map holding the same key-value pairs) equal the
original's; existing messages are untouched; and because the clone's
metadata map is fresh, mutating the clone's metadata through its
reference leaves the original unchanged and vice versa. -/
theorem message_clone_fresh_and_independent {T M : Type} [Inhabited T]
    (h : MsgHeap T M) (r : Nat) (hr : r < h.cells.length) :
    ((h.cloneAlloc r).2 = h.cells.length) ∧
    ((h.cloneAlloc r).2 ≠ r) ∧
    ((h.cloneAlloc r).1.read (h.cloneAlloc r).2 = h.read r) ∧
    (∀ x, x < h.cells.length → (h.cloneAlloc r).1.read x = h.read x) ∧
    (∀ k v, ((h.cloneAlloc r).1.setMeta (h.cloneAlloc r).2 k v).read r = h.read r) ∧
    (∀ k v, ((h.cloneAlloc r).1.setMeta r k v).read (h.cloneAlloc r).2 =
        (h.cloneAlloc r).1.read (h.cloneAlloc r).2) := by
  have hne : h.cells.length ≠ r := fun hc => absurd (hc ▸ hr) (lt_irrefl _)
  have hfresh : (h.cloneAlloc r).2 = h.cells.length := rfl
  have hlen : (h.cloneAlloc r).1.cells.length = h.cells.length + 1 := by
    simp [MsgHeap.cloneAlloc]
  have hold : ∀ x, x < h.cells.length → (h.cloneAlloc r).1.read x = h.read x := by
    intro x hx
    simp only [MsgHeap.cloneAlloc, MsgHeap.read]
    exact getD_append_of_lt _ _ _ _ hx
  have hcontents : (h.cloneAlloc r).1.read (h.cloneAlloc r).2 = h.read r := by
    simp only [MsgHeap.cloneAlloc, MsgHeap.read]
    rw [getD_append_of_ge _ _ _ _ (le_refl _)]
    simp [cloneData_eq]
  refine ⟨hfresh, hne, hcontents, hold, fun k v => ?_, fun k v => ?_⟩
  · simp only [MsgHeap.setMeta, MsgHeap.read, MsgHeap.cloneAlloc]
    rw [getD_set_other _ _ _ _ _ hne]
    exact getD_append_of_lt _ _ _ _ hr
  · simp only [MsgHeap.setMeta, MsgHeap.read, MsgHeap.cloneAlloc]
    rw [getD_set_other _ _ _ _ _ (fun hc => hne hc.symm)]

/-- C8 witness: the theorem at a concrete one-message heap. -/
theorem message_clone_fresh_and_independent_witness :
    (let h0 : MsgHeap String String :=
      ⟨[{ ID := "m1", Data := "payload", Metadata := [("k", "v")],
          Error := none, ErrorStage := "" }]⟩
     ((h0.cloneAlloc 0).2 = h0.cells.length) ∧
     ((h0.cloneAlloc 0).2 ≠ 0) ∧
     ((h0.cloneAlloc 0).1.read (h0.cloneAlloc 0).2 = h0.read 0) ∧
     (∀ x, x < h0.cells.length → (h0.cloneAlloc 0).1.read x = h0.read x) ∧
     (∀ k v, ((h0.cloneAlloc 0).1.setMeta (h0.cloneAlloc 0).2 k v).read 0 = h0.read 0) ∧
     (∀ k v, ((h0.cloneAlloc 0).1.setMeta 0 k v).read (h0.cloneAlloc 0).2 =
         (h0.cloneAlloc 0).1.read (h0.cloneAlloc 0).2)) :=
  message_clone_fresh_and_independent
    ⟨[{ ID := "m1", Data := "payload", Metadata := [("k", "v")],
        Error := none, ErrorStage := "" }]⟩ 0 (by decide)

/-- Cells after one fan-out: the clones are appended in order, all with
the contents of the message being fanned out. -/
theorem fanoutMsg_cells {T M : Type} [Inhabited T] (rem : Nat) :
    ∀ (h : MsgHeap T M) (r limit : Nat), r < h.cells.length →
    (fanoutMsg h r rem limit).1.cells =
      h.cells ++ List.replicate (numAlloc rem limit) (cloneData (h.read r)) := by
  induction rem with
  | zero => intro h r limit _; simp [fanoutMsg, numAlloc]
  | succ n ih =>
    intro h r limit hr
    cases limit with
    | zero => simp [fanoutMsg, numAlloc, MsgHeap.cloneAlloc]
    | succ l =>
      have hr1 : r < (h.cloneAlloc r).1.cells.length := by
        simp only [MsgHeap.cloneAlloc, List.length_append, List.length_cons,
          List.length_nil]
        omega
      have hread : (h.cloneAlloc r).1.read r = h.read r := by
        simp only [MsgHeap.cloneAlloc, MsgHeap.read]
        exact getD_append_of_lt _ _ _ _ hr
      simp only [fanoutMsg]
      rw [ih (h.cloneAlloc r).1 r l hr1, hread]
      simp only [MsgHeap.cloneAlloc, numAlloc, List.append_assoc]
      congr 1
      rw [Nat.add_comm 1 (numAlloc n l)]
      simp [List.replicate_succ]

/-- The delivered row of one fan-out: branch j receives the j-th clone
(reference = prior heap size + j) when j is below the served limit, and
nothing otherwise. -/
theorem fanoutMsg_row {T M : Type} [Inhabited T] (rem : Nat) :
    ∀ (h : MsgHeap T M) (r limit : Nat),
    (fanoutMsg h r rem limit).2 =
      (List.range rem).map
        (fun j => if j < limit then some (h.cells.length + j) else none) := by
  induction rem with
  | zero => intro h r limit; simp [fanoutMsg]
  | succ n ih =>
    intro h r limit
    cases limit with
    | zero => simp [fanoutMsg, Nat.not_lt_zero, List.map_const', List.length_range]
    | succ l =>
      simp only [fanoutMsg]
      rw [ih (h.cloneAlloc r).1 r l]
      rw [List.range_succ_eq_map, List.map_cons, List.map_map]
      simp only [MsgHeap.cloneAlloc, List.length_append, List.length_cons,
        List.length_nil, Nat.zero_lt_succ, if_pos, Nat.add_zero, Function.comp]
      congr 1
      apply map_eq_on
      intro a _
      simp only [Function.comp_apply, Nat.succ_eq_add_one]
      by_cases ha : a < l
      · rw [if_pos ha, if_pos (by omega : a + 1 < l + 1)]
        exact congrArg some (by omega)
      · rw [if_neg ha, if_neg (by omega : ¬ a + 1 < l + 1)]

/-- One splitter step: processing the head message fans it out in full
and the run continues on the tail with the heap extended by its k
clones. Shared shape of the uncancelled case and the
cancellation-later case. -/
theorem oneToMany_step_spec {T M : Type} [Inhabited T] (k r : Nat)
    (rest : List Nat) (cancel cancel2 : Option (Nat × Nat)) (h : MsgHeap T M)
    (hrec : oneToMany h k (r :: rest) cancel =
      ⟨(oneToMany (fanoutMsg h r k k).1 k rest cancel2).heap,
       (fanoutMsg h r k k).2 ::
         (oneToMany (fanoutMsg h r k k).1 k rest cancel2).rows,
       List.replicate k true⟩)
    (hcut : cutoff cancel (rest.length + 1) = cutoff cancel2 rest.length + 1)
    (hv : ∀ x ∈ r :: rest, x < h.cells.length)
    (ih : SplitterSpec (fanoutMsg h r k k).1 k rest cancel2) :
    SplitterSpec h k (r :: rest) cancel := by
  have hr : r < h.cells.length := hv r (by simp)
  have hcells : (fanoutMsg h r k k).1.cells =
      h.cells ++ List.replicate k (cloneData (h.read r)) := by
    rw [fanoutMsg_cells k h r k hr, numAlloc_self]
  have hlen1 : (fanoutMsg h r k k).1.cells.length = h.cells.length + k := by
    rw [hcells]; simp
  have hpres1 : ∀ x, x < h.cells.length →
      (fanoutMsg h r k k).1.read x = h.read x := by
    intro x hx
    simp only [MsgHeap.read, hcells]
    exact getD_append_of_lt _ _ _ _ hx
  have hclone1 : ∀ j, j < k →
      (fanoutMsg h r k k).1.read (h.cells.length + j) = cloneData (h.read r) := by
    intro j hj
    simp only [MsgHeap.read, hcells]
    rw [getD_append_of_ge _ _ _ _ (by omega), Nat.add_sub_cancel_left]
    exact getD_replicate_of_lt _ _ _ _ hj
  obtain ⟨ihClosed, ihPres, ihLen, ihRows⟩ := ih
  refine ⟨?_, ?_, ?_, ?_⟩
  · rw [hrec]
  · intro x hx
    rw [hrec]
    have hx1 : x < (fanoutMsg h r k k).1.cells.length := by omega
    exact (ihPres x hx1).trans (hpres1 x hx)
  · rw [hrec]
    calc h.cells.length ≤ (fanoutMsg h r k k).1.cells.length := by omega
      _ ≤ _ := ihLen
  · intro t ht
    rw [hrec]
    cases t with
    | zero =>
      constructor
      · show (fanoutMsg h r k k).2 = _
        rw [fanoutMsg_row k h r k]
        apply map_eq_on
        intro a ha
        rw [if_pos (List.mem_range.mp ha)]
        exact congrArg some (by omega)
      · intro j hj
        have hlt : h.cells.length + 0 * k + j < (fanoutMsg h r k k).1.cells.length := by
          rw [hlen1]; omega
        rw [ihPres _ hlt]
        have : h.cells.length + 0 * k + j = h.cells.length + j := by omega
        rw [this, hclone1 j hj]
        rfl
    | succ t2 =>
      simp only [List.length_cons] at ht
      rw [hcut] at ht
      have ht2 : t2 < cutoff cancel2 rest.length := by omega
      obtain ⟨hrow, hcontent⟩ := ihRows t2 ht2
      constructor
      · show (oneToMany (fanoutMsg h r k k).1 k rest cancel2).rows.getD t2 [] = _
        rw [hrow, hlen1]
        apply map_eq_on
        intro a _
        exact congrArg some (by rw [Nat.succ_mul]; omega)
      · intro j hj
        have heq : h.cells.length + (t2 + 1) * k + j =
            (fanoutMsg h r k k).1.cells.length + t2 * k + j := by
          rw [hlen1, Nat.succ_mul]; omega
        rw [heq, hcontent j hj]
        have ht2len : t2 < rest.length :=
          Nat.lt_of_lt_of_le ht2 (cutoff_le cancel2 rest.length)
        have hmem : rest.getD t2 0 ∈ rest := getD_mem_of_lt rest t2 0 ht2len
        have hvr : rest.getD t2 0 < h.cells.length :=
          hv _ (List.mem_cons_of_mem r hmem)
        rw [hpres1 _ hvr]
        rfl

/-- The splitter contract holds for every input, branch count and
cancellation schedule. -/
theorem oneToMany_splitter_spec {T M : Type} [Inhabited T] (input : List Nat) :
    ∀ (cancel : Option (Nat × Nat)) (h : MsgHeap T M) (k : Nat),
    (∀ x ∈ input, x < h.cells.length) → SplitterSpec h k input cancel := by
  induction input with
  | nil =>
    intro cancel h k _
    refine ⟨rfl, fun x _ => rfl, le_refl _, fun t ht => ?_⟩
    simp only [List.length_nil] at ht
    rw [cutoff_zero] at ht
    exact absurd ht (Nat.not_lt_zero t)
  | cons r rest ih =>
    intro cancel h k hv
    have hr : r < h.cells.length := hv r (by simp)
    have hvrest : ∀ x ∈ rest, x < h.cells.length :=
      fun x hx => hv x (by simp [hx])
    match cancel with
    | none =>
      apply oneToMany_step_spec k r rest none none h rfl rfl hv
      apply ih none (fanoutMsg h r k k).1 k
      intro x hx
      have : (fanoutMsg h r k k).1.cells.length = h.cells.length + k := by
        rw [fanoutMsg_cells k h r k hr, numAlloc_self]; simp
      have := hvrest x hx
      omega
    | some (0, 0) =>
      refine ⟨rfl, fun x _ => rfl, le_refl _, fun t ht => ?_⟩
      simp [cutoff] at ht
    | some (0, j + 1) =>
      refine ⟨rfl, ?_, ?_, fun t ht => ?_⟩
      · intro x hx
        show (fanoutMsg h r k (j + 1)).1.read x = h.read x
        simp only [MsgHeap.read, fanoutMsg_cells k h r (j + 1) hr]
        exact getD_append_of_lt _ _ _ _ hx
      · show h.cells.length ≤ (fanoutMsg h r k (j + 1)).1.cells.length
        rw [fanoutMsg_cells k h r (j + 1) hr]
        simp
      · simp [cutoff] at ht
    | some (i + 1, j) =>
      apply oneToMany_step_spec k r rest (some (i + 1, j)) (some (i, j)) h rfl
      · show cutoff (some (i + 1, j)) (rest.length + 1) =
          cutoff (some (i, j)) rest.length + 1
        simp only [cutoff]
        omega
      · exact hv
      · apply ih (some (i, j)) (fanoutMsg h r k k).1 k
        intro x hx
        have : (fanoutMsg h r k k).1.cells.length = h.cells.length + k := by
          rw [fanoutMsg_cells k h r k hr, numAlloc_self]; simp
        have := hvrest x hx
        omega

/-- C2: for every envelope the Broadcast splitter receives before its
input closes or cancellation fires (index below the cutoff of the
schedule), it pushes into each of the k branch input streams one freshly
produced clone: branch j of message t receives the message allocated at
reference (initial heap size) + t * k + j, whose contents are the clone
of that input message; that reference is never one of the original
envelopes, and no two branch deliveries share a reference; and on input
close or cancellation the splitter closes all k branch input streams. -/
theorem broadcast_splitter_fresh_clones {T M : Type} [Inhabited T]
    (h : MsgHeap T M) (k : Nat) (input : List Nat)
    (cancel : Option (Nat × Nat))
    (hv : ∀ x ∈ input, x < h.cells.length) :
    ((oneToMany h k input cancel).closed = List.replicate k true) ∧
    (∀ t, t < cutoff cancel input.length →
      ((oneToMany h k input cancel).rows.getD t [] =
          (List.range k).map (fun j => some (h.cells.length + t * k + j))) ∧
      ∀ j, j < k →
        ((oneToMany h k input cancel).heap.read (h.cells.length + t * k + j) =
            cloneData (h.read (input.getD t 0))) ∧
        (h.cells.length + t * k + j ∉ input) ∧
        (∀ t2 j2, j2 < k → (t ≠ t2 ∨ j ≠ j2) →
          h.cells.length + t * k + j ≠ h.cells.length + t2 * k + j2)) := by
  obtain ⟨hClosed, _, _, hRows⟩ := oneToMany_splitter_spec input cancel h k hv
  refine ⟨hClosed, fun t ht => ?_⟩
  obtain ⟨hrow, hcontent⟩ := hRows t ht
  refine ⟨hrow, fun j hj => ⟨hcontent j hj, ?_, ?_⟩⟩
  · intro hmemc
    have := hv _ hmemc
    omega
  · intro t2 j2 hj2 hne heq
    have hflat : t * k + j = t2 * k + j2 := by omega
    obtain ⟨he1, he2⟩ := rowMajorInj hj hj2 hflat
    rcases hne with hh | hh
    · exact hh he1
    · exact hh he2

/-- C2 witness: the theorem for a one-message input into two branches
with no cancellation. -/
theorem broadcast_splitter_fresh_clones_witness :
    (let h0 : MsgHeap String String :=
      ⟨[{ ID := "m", Data := "d", Metadata := [("a", "b")],
          Error := none, ErrorStage := "" }]⟩
     ((oneToMany h0 2 [0] none).closed = List.replicate 2 true) ∧
     (∀ t, t < cutoff none [0].length →
       ((oneToMany h0 2 [0] none).rows.getD t [] =
           (List.range 2).map (fun j => some (h0.cells.length + t * 2 + j))) ∧
       ∀ j, j < 2 →
         ((oneToMany h0 2 [0] none).heap.read (h0.cells.length + t * 2 + j) =
             cloneData (h0.read ([0].getD t 0))) ∧
         (h0.cells.length + t * 2 + j ∉ [0]) ∧
         (∀ t2 j2, j2 < 2 → (t ≠ t2 ∨ j ≠ j2) →
           h0.cells.length + t * 2 + j ≠ h0.cells.length + t2 * 2 + j2))) :=
  broadcast_splitter_fresh_clones
    ⟨[{ ID := "m", Data := "d", Metadata := [("a", "b")],
        Error := none, ErrorStage := "" }]⟩ 2 [0] none (by decide)

theorem take_append_self {A : Type} (l l2 : List A) :
    (l ++ l2).take l.length = l := by
  induction l with
  | nil => rfl
  | cons a t ih => simp [ih]

/-- Appending to a slice never disturbs a different backing array: the
write goes either into the slice's own array or into a freshly
allocated one. -/
theorem goAppend_preserves {A : Type} [Inhabited A] (h : SliceHeap A)
    (s : GoSlice) (x : A) (t : Nat) (ht : t < h.arrays.length)
    (hne : s.ref ≠ t) :
    ((goAppend h s x).1.arrays.getD t [] = h.arrays.getD t []) ∧
    (t < (goAppend h s x).1.arrays.length) ∧
    ((goAppend h s x).2.ref ≠ t) := by
  simp only [goAppend]
  split
  · refine ⟨getD_set_other _ _ _ _ _ hne, ?_, hne⟩
    simp only [List.length_set]
    exact ht
  · refine ⟨getD_append_of_lt _ _ _ _ ht, ?_, ?_⟩
    · simp only [List.length_append, List.length_cons, List.length_nil]
      omega
    · show h.arrays.length ≠ t
      omega

/-- Sequential only appends, so it preserves any other backing array and
keeps the builder's slice away from it. -/
theorem Sequential_preserves {J : Type} [Inhabited J] (jobs : List J) :
    ∀ (h : SliceHeap (StageSpec J)) (p : PipelineState J) (t : Nat),
    t < h.arrays.length → p.stages.ref ≠ t →
    ((Sequential h p jobs).1.arrays.getD t [] = h.arrays.getD t []) ∧
    (t < (Sequential h p jobs).1.arrays.length) ∧
    ((Sequential h p jobs).2.stages.ref ≠ t) := by
  induction jobs with
  | nil => intro h p t ht hne; exact ⟨rfl, ht, hne⟩
  | cons job rest ih =>
    intro h p t ht hne
    obtain ⟨g1, g2, g3⟩ := goAppend_preserves h p.stages (.sequential job) t ht hne
    simp only [Sequential]
    obtain ⟨r1, r2, r3⟩ := ih (goAppend h p.stages (.sequential job)).1
      { p with stages := (goAppend h p.stages (.sequential job)).2 } t g2 g3
    exact ⟨r1.trans g1, r2, r3⟩

/-- Every later builder call preserves any backing array the builder's
slice does not point at. -/
theorem applyOp_preserves {J : Type} [Inhabited J] (op : BuilderOp J)
    (h : SliceHeap (StageSpec J)) (p : PipelineState J) (t : Nat)
    (ht : t < h.arrays.length) (hne : p.stages.ref ≠ t) :
    ((applyOp h p op).1.arrays.getD t [] = h.arrays.getD t []) ∧
    (t < (applyOp h p op).1.arrays.length) ∧
    ((applyOp h p op).2.stages.ref ≠ t) := by
  match op with
  | .sequential jobs => exact Sequential_preserves jobs h p t ht hne
  | .parallel jobs => exact goAppend_preserves h p.stages (.parallel jobs) t ht hne
  | .fanOut job count => exact goAppend_preserves h p.stages (.fanOut job count) t ht hne
  | .withBufferSize size => exact ⟨rfl, ht, hne⟩

theorem applyOps_preserves {J : Type} [Inhabited J] (ops : List (BuilderOp J)) :
    ∀ (h : SliceHeap (StageSpec J)) (p : PipelineState J) (t : Nat),
    t < h.arrays.length → p.stages.ref ≠ t →
    ((applyOps h p ops).1.arrays.getD t [] = h.arrays.getD t []) ∧
    (t < (applyOps h p ops).1.arrays.length) ∧
    ((applyOps h p ops).2.stages.ref ≠ t) := by
  induction ops with
  | nil => intro h p t ht hne; exact ⟨rfl, ht, hne⟩
  | cons op rest ih =>
    intro h p t ht hne
    obtain ⟨g1, g2, g3⟩ := applyOp_preserves op h p t ht hne
    simp only [applyOps]
    obtain ⟨r1, r2, r3⟩ := ih (applyOp h p op).1 (applyOp h p op).2 t g2 g3
    exact ⟨r1.trans g1, r2, r3⟩

/-- Build's compiled slice points at the array freshly allocated by
make, sits one past the old heap, and its contents equal the builder's
stages at the time of the call (the copy). -/
theorem build_readSlice {J : Type} [Inhabited J] (h : SliceHeap (StageSpec J))
    (p : PipelineState J) (hwf : SliceWF h p.stages) :
    (Build h p).1.readSlice (Build h p).2.stages = h.readSlice p.stages ∧
    (Build h p).1.arrays.length = h.arrays.length + 1 := by
  obtain ⟨href, hcap⟩ := hwf
  have hsrc : (goMake h p.stages.len).1.arrays.getD p.stages.ref [] =
      h.arrays.getD p.stages.ref [] :=
    getD_append_of_lt _ _ _ _ href
  have hmoved : ((goMake h p.stages.len).1.readSlice p.stages) =
      h.readSlice p.stages := by
    simp only [SliceHeap.readSlice, goMake]
    rw [getD_append_of_lt _ _ _ _ href]
  have hlenmv : (h.readSlice p.stages).length = p.stages.len := by
    simp only [SliceHeap.readSlice, List.length_take]
    omega
  constructor
  · show ((Build h p).1.arrays.getD h.arrays.length []).take p.stages.len =
      h.readSlice p.stages
    have harr : (Build h p).1.arrays =
        (h.arrays ++ [List.replicate p.stages.len default]).set h.arrays.length
          (((goMake h p.stages.len).1.readSlice p.stages).take p.stages.len ++
            ((goMake h p.stages.len).1.arrays.getD h.arrays.length []).drop
              (((goMake h p.stages.len).1.readSlice p.stages).take p.stages.len).length) :=
      rfl
    rw [harr, getD_set_self _ _ _ _ (by simp)]
    rw [hmoved, ← hlenmv, List.take_length]
    rw [take_append_self]
  · show ((h.arrays ++ [List.replicate p.stages.len default]).set _ _).length =
      h.arrays.length + 1
    simp

/-- C9: Build returns an executor bound to a snapshot: the compiled
stage slice read from the heap equals the builder's stages at the time
of the call, and after any sequence of later Sequential, Parallel,
FanOut or WithBufferSize calls on the same builder, the executor's stage
slice still reads the same and its buffer size is the value copied at
Build time. -/
theorem build_snapshot_immutable {J : Type} [Inhabited J]
    (h : SliceHeap (StageSpec J)) (p : PipelineState J)
    (ops : List (BuilderOp J)) (hwf : SliceWF h p.stages) :
    ((Build h p).1.readSlice (Build h p).2.stages = h.readSlice p.stages) ∧
    ((applyOps (Build h p).1 p ops).1.readSlice (Build h p).2.stages =
        (Build h p).1.readSlice (Build h p).2.stages) ∧
    ((Build h p).2.bufferSize = p.bufferSize) := by
  obtain ⟨hsnap, hlen⟩ := build_readSlice h p hwf
  refine ⟨hsnap, ?_, rfl⟩
  have ht : h.arrays.length < (Build h p).1.arrays.length := by omega
  have hne : p.stages.ref ≠ h.arrays.length := by
    have := hwf.1
    omega
  obtain ⟨g1, _, _⟩ := applyOps_preserves ops (Build h p).1 p h.arrays.length ht hne
  have hrefeq : (Build h p).2.stages.ref = h.arrays.length := rfl
  simp only [SliceHeap.readSlice, hrefeq, g1]

/-- C9 witness: a concrete builder with one stage, built, then mutated
by a later Sequential call and a later WithBufferSize call. -/
theorem build_snapshot_immutable_witness :
    (let h0 : SliceHeap (StageSpec Nat) := ⟨[]⟩
     let q0 := NewPipeline h0
     let q1 := Sequential q0.1 q0.2 [7]
     let ops : List (BuilderOp Nat) := [.sequential [8], .withBufferSize 9]
     ((Build q1.1 q1.2).1.readSlice (Build q1.1 q1.2).2.stages =
        q1.1.readSlice q1.2.stages) ∧
     ((applyOps (Build q1.1 q1.2).1 q1.2 ops).1.readSlice (Build q1.1 q1.2).2.stages =
        (Build q1.1 q1.2).1.readSlice (Build q1.1 q1.2).2.stages) ∧
     ((Build q1.1 q1.2).2.bufferSize = q1.2.bufferSize)) :=
  build_snapshot_immutable
    (Sequential (NewPipeline (⟨[]⟩ : SliceHeap (StageSpec Nat))).1
      (NewPipeline (⟨[]⟩ : SliceHeap (StageSpec Nat))).2 [7]).1
    (Sequential (NewPipeline (⟨[]⟩ : SliceHeap (StageSpec Nat))).1
      (NewPipeline (⟨[]⟩ : SliceHeap (StageSpec Nat))).2 [7]).2
    [.sequential [8], .withBufferSize 9]
    ⟨by decide, by decide⟩

end Tesei
